import Mathlib

/-
Verification development for the NDJSON scan execution plan
(`src/datafusion/src/physical_plan/file_format/json.rs`).

The file is shallowly embedded: the per-file batch producer
`JsonBatchReader`, its `Iterator::next` step, and the `NdJsonExec`
plan node are translated into executable Lean definitions.  The byte
stream behind the `BufRead + Seek` reader is modelled as a list of
lines, each line being either a parsed flat JSON object or a marker
for text that fails JSON parsing; the read position is an index into
that list.  The external `arrow2` `ndjson` routines (`infer`,
`FileReader` chunking, `deserialize`) are modelled at their documented
interface.  Repository code that the claims depend on but that is not
under `src/` (`RecordBatch::try_new`, `FileStream`, schema projection)
is modelled from the specification and marked as such.
-/

set_option autoImplicit false

namespace NdJson

/-- A scalar JSON value appearing as a field of a line-delimited record. -/
inductive JScalar where
  | null
  | int (n : Int)
  | str (s : String)
  | bool (b : Bool)
  deriving DecidableEq, Repr

/-- A parsed line: a flat JSON object (field name, value) in source order. -/
abbrev JObj := List (String × JScalar)

/-- A raw line of the file.  `none` models text that fails JSON
deserialization (`serde_json::from_str` returns an error on it). -/
abbrev Line := Option JObj

/-- A scalar Arrow data type, as inferred from scalar JSON values. -/
inductive SType where
  | snull
  | int64
  | utf8
  | boolean
  deriving DecidableEq, Repr

/-- An inferred structural description of the observed rows:
either `null` (no rows were observed) or a struct of named scalar fields.
This models the `DataType` returned by `arrow2`'s `ndjson::read::infer`. -/
inductive DType where
  | null
  | strct (fields : List (String × SType))
  deriving DecidableEq, Repr

/-- An Arrow schema field: name and data type. -/
structure Field where
  name : String
  dtype : SType
  deriving DecidableEq, Repr

/-- A typed column: cells are present scalars or nulls. -/
structure Column where
  name : String
  dtype : SType
  cells : List (Option JScalar)
  deriving DecidableEq, Repr

/-- The result of `arrow2`'s `ndjson::read::deserialize` on one chunk of
rows: an array of the inferred data type.  For a `strct` type this is a
struct array, i.e. a list of named columns; for the `null` type it is a
null array carrying only a length. -/
structure Arr where
  dtype : DType
  len : Nat
  cols : List Column
  deriving DecidableEq, Repr

/-- The data type a single scalar value is inferred to have
(models `arrow2`'s `infer_json` on scalars). -/
def typeOfScalar : JScalar → SType
  | .null => .snull
  | .int _ => .int64
  | .str _ => .utf8
  | .bool _ => .boolean

/-- The structural description of one parsed row (models `infer_json`
on a JSON object: a struct of the per-field inferred types). -/
def inferLine (row : JObj) : DType :=
  .strct (row.map fun p => (p.1, typeOfScalar p.2))

/-- Coercion of two scalar types observed for the same field
(models `arrow2`'s `coerce_data_type` on scalars: equal types are kept,
incompatible types fall back to strings). -/
def mergeS (a b : SType) : SType :=
  if a = b then a else .utf8

/-- Insert one observed field into an accumulated field list: a field
seen before has its type coerced, a new field is appended. -/
def insertField (acc : List (String × SType)) (nt : String × SType) :
    List (String × SType) :=
  if acc.any (fun p => p.1 == nt.1) then
    acc.map (fun p => if p.1 == nt.1 then (p.1, mergeS p.2 nt.2) else p)
  else acc ++ [nt]

/-- Merge the field lists of two observed struct descriptions. -/
def mergeFields (a b : List (String × SType)) : List (String × SType) :=
  b.foldl insertField a

/-- Merge two structural descriptions (models `coerce_data_type` on the
set of per-row types; `null` is the identity, matching `infer` skipping
null-typed rows). -/
def mergeD : DType → DType → DType
  | .null, t => t
  | .strct fs, .null => .strct fs
  | .strct a, .strct b => .strct (mergeFields a b)

/-- Coerce the list of per-row structural descriptions into one
(`coerce_data_type`; an empty list of observations yields `null`). -/
def coerce (ds : List DType) : DType :=
  ds.foldl mergeD .null

/-- Parse a list of raw lines: fails (like `serde_json::from_str` inside
`infer` and `deserialize`) as soon as one line is malformed. -/
def parseLines : List Line → Option (List JObj)
  | [] => some []
  | none :: _ => none
  | some r :: rest => (parseLines rest).map (r :: ·)

/-- `arrow2`'s `ndjson::read::infer` on the remaining unread lines:
parse every remaining line, infer each row's structure, and coerce.
Returns `none` exactly when some remaining line fails JSON parsing. -/
def infer (rem : List Line) : Option DType :=
  (parseLines rem).map fun objs => coerce (objs.map inferLine)

/-- Chunking worker: split a list into consecutive chunks of at most
`n` elements.  The first argument is structural-recursion fuel; one unit
is spent per produced chunk, so the list's length always suffices. -/
def chunksOfFuel : Nat → Nat → List Line → List (List Line)
  | _, _, [] => []
  | 0, _, _ :: _ => []
  | _ + 1, 0, _ :: _ => []
  | fuel + 1, n + 1, x :: xs => ((x :: xs).take (n + 1)) :: chunksOfFuel fuel (n + 1) (xs.drop n)

/-- Split a list into consecutive chunks of at most `n` elements
(models `arrow2`'s `FileReader` reading at most `rows.len()` lines per
`next` call; a zero-sized row buffer reads nothing and yields no chunk).
No produced chunk is empty. -/
def chunksOf (n : Nat) (xs : List Line) : List (List Line) :=
  chunksOfFuel xs.length n xs

/-- `arrow2`'s `ndjson::read::deserialize` of one chunk of parsed rows at
the inferred data type: a `strct` type yields one named column per
inferred field, with a null cell where the field is absent, explicitly
null, or of a mismatching scalar type; the `null` type yields a null
array of the chunk's length. -/
def deserialize (dt : DType) (rows : List JObj) : Arr :=
  match dt with
  | .null => { dtype := .null, len := rows.length, cols := [] }
  | .strct fs =>
    { dtype := .strct fs
      len := rows.length
      cols := fs.map fun nt =>
        { name := nt.1
          dtype := nt.2
          cells := rows.map fun row =>
            ((row.find? (fun p => p.1 == nt.1)).map Prod.snd).bind
              (fun v => if v = JScalar.null then none
                        else if typeOfScalar v = nt.2 then some v else none) } }

/-- Read and deserialize one chunk: fails iff a line in the chunk is
malformed. -/
def readChunk (dt : DType) (chunk : List Line) : Option Arr :=
  (parseLines chunk).map (deserialize dt)

/-- Deserialize every chunk in order, failing at the first malformed
chunk (models the `while let Some(rows) = reader.next().ok()?` loop
body with its `deserialize(rows, ...).ok()?`). -/
def readChunks (dt : DType) : List (List Line) → Option (List Arr)
  | [] => some []
  | c :: cs =>
    match readChunk dt c with
    | none => none
    | some a => (readChunks dt cs).map (a :: ·)

/-- The whole row-reading loop of `JsonBatchReader::next`: chunk the
lines by the batch size and deserialize each chunk at the inferred type. -/
def readAll (dt : DType) (batchSize : Nat) (lines : List Line) : Option (List Arr) :=
  readChunks dt (chunksOf batchSize lines)

/-- A possible failure of a production step that is surfaced as a value
(not swallowed): construction of the output batch. -/
inductive JsonError where
  | batchConstruction
  deriving DecidableEq, Repr

/-- An immutable columnar record batch (`datafusion_common`'s
`RecordBatch`): an ordered list of named typed columns. -/
structure RecordBatch where
  columns : List Column
  deriving DecidableEq, Repr

/-- The number of rows of a batch: the length of its first column
(zero for a batch with no columns). -/
def RecordBatch.numRows (b : RecordBatch) : Nat :=
  match b.columns with
  | [] => 0
  | c :: _ => c.cells.length

/-- Modelled from the spec: the schema-adaptive materialization of one
target field against the observed columns of one chunk (§4.3 step 4 of
the specification; the actual code lives in `datafusion_common`'s
`RecordBatch::try_new`, which is not under `src/`).  A target field
whose name is among the observed columns takes that column, provided its
type can be reconciled with the target type (a mismatch is a
reconciliation failure, §7); a target field with no observed counterpart
is synthesized as an all-null column of the target type and the chunk's
row count. -/
def materializeField (a : Arr) (f : Field) : Except JsonError Column :=
  match a.cols.find? (fun c => c.name == f.name) with
  | some c => if c.dtype = f.dtype then .ok c else .error .batchConstruction
  | none => .ok { name := f.name, dtype := f.dtype, cells := List.replicate a.len none }

/-- Modelled from the spec: materialize every target-schema field in
order against one observed chunk (§4.3 step 4). -/
def collectColumns (a : Arr) : List Field → Except JsonError (List Column)
  | [] => .ok []
  | f :: fs =>
    match materializeField a f with
    | .error e => .error e
    | .ok c =>
      match collectColumns a fs with
      | .error e => .error e
      | .ok cs => .ok (c :: cs)

/-- Modelled from the spec: `RecordBatch::try_new` from
`datafusion_common` (not under `src/`).  The materializer of §4.3
consumes exactly one chunk of observed columns and the target schema;
the arrays handed over by `JsonBatchReader::next` therefore form a
valid batch only when they are a single chunk whose columns reconcile
with the target schema (§7: inferred columns that cannot be reconciled
into a valid batch are an error). -/
def RecordBatch.try_new (schema : List Field) (arrays : List Arr) :
    Except JsonError RecordBatch :=
  match arrays with
  | [a] => (collectColumns a schema).map RecordBatch.mk
  | _ => .error .batchConstruction

/-- The state of the per-file batch producer `JsonBatchReader`: the
underlying stream (as lines plus a read position), the target schema,
the unused name-based projection, and the size of the pre-allocated
row-text buffer (`rows: vec![String::default(); batch_size]`). -/
structure JsonBatchReader where
  lines : List Line
  pos : Nat
  schema : List Field
  proj : Option (List String)
  batchSize : Nat
  deriving DecidableEq, Repr

/-- `JsonBatchReader::new`: wrap a freshly opened reader (position 0)
with the target schema, projection and batch size. -/
def JsonBatchReader.new (lines : List Line) (schema : List Field)
    (batchSize : Nat) (proj : Option (List String)) : JsonBatchReader :=
  { lines := lines, pos := 0, schema := schema, proj := proj, batchSize := batchSize }

/-- The structural-inference pass at the start of a production step:
`ndjson::read::infer(&mut self.reader, None)` scans every line from the
current read position to the end of the stream, consuming the stream.
On success the position is at the end; on failure (a malformed line)
the stream has been consumed through the offending line. -/
def JsonBatchReader.inferStep (s : JsonBatchReader) : Option DType × JsonBatchReader :=
  let rem := s.lines.drop s.pos
  match infer rem with
  | none => (none, { s with pos := s.pos + (rem.takeWhile Option.isSome).length + 1 })
  | some dt => (some dt, { s with pos := s.lines.length })

/-- `self.reader.rewind()`: seek the underlying stream to its start
(position 0).  In this pure model the seek itself cannot fail. -/
def JsonBatchReader.rewind (s : JsonBatchReader) : JsonBatchReader :=
  { s with pos := 0 }

/-- `<JsonBatchReader as Iterator>::next`.  Infer a structural
description from the current position (a failure is swallowed by
`.ok()?` into `None`), rewind the stream to its start, read every
remaining chunk of at most `batch_size` rows and deserialize it at the
inferred type (failures again swallowed into `None`), and finally hand
the collected arrays to `RecordBatch::try_new`, whose result — success
or error — is the only value ever yielded. -/
def JsonBatchReader.next (s : JsonBatchReader) :
    Option (Except JsonError RecordBatch) × JsonBatchReader :=
  match s.inferStep with
  | (none, s1) => (none, s1)
  | (some dt, s1) =>
    let s2 := s1.rewind
    match readAll dt s2.batchSize (s2.lines.drop s2.pos) with
    | none => (none, { s2 with pos := s2.lines.length })
    | some arrays =>
      (some (RecordBatch.try_new s2.schema arrays), { s2 with pos := s2.lines.length })

/-- Truncate a batch to at most `k` rows (the partition stream's
truncation to the remaining row budget, §4.2 step 3). -/
def RecordBatch.truncate (k : Nat) (b : RecordBatch) : RecordBatch :=
  { columns := b.columns.map fun c => { c with cells := c.cells.take k } }

/-- Modelled from the spec: the state of the partition stream
(`FileStream`, `src/physical_plan/file_format/file_stream.rs`, not under
`src/`): the per-file producers of the partition's file group in order
(current file first; opening through the store is modelled as already
done and never failing), and the remaining row budget (§3, §4.2). -/
structure FileStreamState where
  files : List JsonBatchReader
  limit : Option Nat
  deriving DecidableEq, Repr

/-- Modelled from the spec: the partition stream's production loop
(`FileStream`, not under `src/`), run for at most `fuel` polls of the
per-file producer.  Per §4.2: stop when the budget reaches zero; pop the
next file when the current producer signals exhaustion; on a produced
batch, truncate it to the remaining budget and decrement the budget; on
an error, surface it as the final item and stop. -/
def runStream (fuel : Nat) (st : FileStreamState) :
    List (Except JsonError RecordBatch) :=
  match fuel with
  | 0 => []
  | fuel + 1 =>
    if st.limit = some 0 then []
    else
      match st.files with
      | [] => []
      | f :: rest =>
        match f.next with
        | (none, _) => runStream fuel { st with files := rest }
        | (some (.error e), _) => [.error e]
        | (some (.ok b), f') =>
          match st.limit with
          | none => .ok b :: runStream fuel { st with files := f' :: rest }
          | some k =>
            let emit := min k b.numRows
            .ok (b.truncate emit) ::
              runStream fuel { files := f' :: rest, limit := some (k - emit) }

/-- The total number of rows carried by the successful items of a
partition's batch sequence. -/
def emittedRows : List (Except JsonError RecordBatch) → Nat
  | [] => 0
  | .ok b :: rest => b.numRows + emittedRows rest
  | .error _ :: rest => emittedRows rest

/-- The number of rows available in a partition's files: the
well-formed records of every file of the group. -/
def availableRows (files : List JsonBatchReader) : Nat :=
  (files.map fun f => (f.lines.filterMap id).length).sum

/-- Best-effort statistics of a scan (`Statistics`): only the fields the
claims mention are carried. -/
structure Statistics where
  num_rows : Option Nat
  total_byte_size : Option Nat
  deriving DecidableEq, Repr

/-- A file descriptor resolved through the object store: its content as
lines. -/
abbrev PartitionedFile := List Line

/-- The scan configuration (`FileScanConfig`): file groups (outer index
= partition), the declared file schema, an optional projection by
column index, statistics, an optional row limit, and the names of the
partition columns. -/
structure FileScanConfig where
  file_groups : List (List PartitionedFile)
  file_schema : List Field
  statistics : Statistics
  projection : Option (List Nat)
  limit : Option Nat
  table_partition_cols : List String
  deriving DecidableEq, Repr

/-- Modelled from the spec: `FileScanConfig::project` (in
`file_format/mod.rs`, not under `src/`): restrict the file schema to
the projected indices (or keep it whole) and keep the statistics
best-effort (§4.4; partition columns, which no claim inspects, are
appended as string-typed fields). -/
def FileScanConfig.project (c : FileScanConfig) : List Field × Statistics :=
  match c.projection with
  | none =>
    (c.file_schema ++ c.table_partition_cols.map (fun n => { name := n, dtype := .utf8 }),
     c.statistics)
  | some idxs =>
    (idxs.filterMap (fun i => c.file_schema.get? i),
     { num_rows := c.statistics.num_rows, total_byte_size := none })

/-- Modelled from the spec: `FileScanConfig::projected_file_column_names`
(not under `src/`): the projected file-column names, never including
partition columns (§4.4). -/
def FileScanConfig.projected_file_column_names (c : FileScanConfig) :
    Option (List String) :=
  c.projection.map fun idxs =>
    idxs.filterMap fun i => (c.file_schema.get? i).map (·.name)

/-- A structural (contract) error of the plan-node interface
(`DataFusionError::Internal`; the formatted message is elided). -/
inductive DataFusionError where
  | internal
  deriving DecidableEq, Repr

/-- The output partitioning of a plan node; the scan node only ever uses
the unknown/arbitrary variant. -/
inductive Partitioning where
  | unknownPartitioning (n : Nat)
  | roundRobinBatch (n : Nat)
  deriving DecidableEq, Repr

/-- The NDJSON scan plan node (`NdJsonExec`): the base configuration
plus the projected statistics and schema computed once at construction. -/
structure NdJsonExec where
  base_config : FileScanConfig
  projected_statistics : Statistics
  projected_schema : List Field
  deriving DecidableEq, Repr

/-- `NdJsonExec::new`: project the configuration once and store the
results. -/
def NdJsonExec.new (base_config : FileScanConfig) : NdJsonExec :=
  let p := base_config.project
  { base_config := base_config, projected_schema := p.1, projected_statistics := p.2 }

/-- `NdJsonExec::schema`. -/
def NdJsonExec.schema (e : NdJsonExec) : List Field :=
  e.projected_schema

/-- `NdJsonExec::output_partitioning`:
`Partitioning::UnknownPartitioning(self.base_config.file_groups.len())`. -/
def NdJsonExec.output_partitioning (e : NdJsonExec) : Partitioning :=
  .unknownPartitioning e.base_config.file_groups.length

/-- `NdJsonExec::children`: a leaf node. -/
def NdJsonExec.children (_e : NdJsonExec) : List Unit :=
  []

/-- `NdJsonExec::with_new_children`: an empty list returns a clone of
the node, a non-empty list is an internal error. -/
def NdJsonExec.with_new_children (e : NdJsonExec) (children : List Unit) :
    Except DataFusionError NdJsonExec :=
  match children with
  | [] => .ok e
  | _ :: _ => .error .internal

/-- `NdJsonExec::execute`: build the per-file reader factory (each file
wrapped in a fresh `JsonBatchReader` over the file schema, the runtime's
batch size and the projected column names) and a `FileStream` over
`self.base_config.file_groups[partition]` with the configured limit.
The indexing `file_groups[partition]` panics when `partition` is out of
range: the panic is modelled as `none`, a returned stream as
`some (.ok _)`.  The runtime is modelled by its only consulted datum,
the batch size. -/
def NdJsonExec.execute (e : NdJsonExec) (partition : Nat) (batchSize : Nat) :
    Option (Except DataFusionError FileStreamState) :=
  let proj := e.base_config.projected_file_column_names
  match e.base_config.file_groups.get? partition with
  | none => none
  | some group =>
    some (.ok
      { files := group.map fun file =>
          JsonBatchReader.new file e.base_config.file_schema batchSize proj
        limit := e.base_config.limit })

/-- `NdJsonExec::statistics`. -/
def NdJsonExec.statistics (e : NdJsonExec) : Statistics :=
  e.projected_statistics

/-- The field names of a structural description. -/
def namesD : DType → List String
  | .null => []
  | .strct fs => fs.map Prod.fst

/-- The field names observed among the well-formed records of a file. -/
def linesKeys (lines : List Line) : List String :=
  ((lines.filterMap id).map (fun row => row.map Prod.fst)).flatten

/-- A well-formed one-field record, value `a = 1`. -/
def exRow1 : Line := some [("a", JScalar.int 1)]

/-- A well-formed one-field record, value `a = 2`. -/
def exRow2 : Line := some [("a", JScalar.int 2)]

/-- A one-field target schema `{a: int64}`. -/
def exSchemaA : List Field := [{ name := "a", dtype := SType.int64 }]

/-- A two-field target schema `{a: int64, b: utf8}` whose second field
never occurs in the example rows. -/
def exSchemaAB : List Field :=
  [{ name := "a", dtype := SType.int64 }, { name := "b", dtype := SType.utf8 }]

/-- A freshly opened reader over a one-row file. -/
def exReaderOneRow : JsonBatchReader :=
  JsonBatchReader.new [exRow1] exSchemaA 4 none

/-- A freshly opened reader whose target schema has a field missing
from the data. -/
def exReaderMissing : JsonBatchReader :=
  JsonBatchReader.new [exRow1] exSchemaAB 4 none

/-- A freshly opened reader over a file whose only line is malformed. -/
def exReaderBad : JsonBatchReader :=
  JsonBatchReader.new [none] exSchemaA 4 none

/-- A reader over a two-row file positioned after the first row (the
position a sequential consumer of one row would hold). -/
def exReaderMid : JsonBatchReader :=
  { lines := [exRow1, exRow2], pos := 1, schema := exSchemaA, proj := none, batchSize := 10 }

/-- A reader whose malformed first line sits before the read position,
while the remaining line is well-formed. -/
def exReaderBadMid : JsonBatchReader :=
  { lines := [none, exRow1], pos := 1, schema := exSchemaA, proj := none, batchSize := 4 }

/-- A freshly opened reader over a two-row file with batch size 1. -/
def exReaderTwoRows : JsonBatchReader :=
  JsonBatchReader.new [exRow1, exRow2] exSchemaA 1 none

/-- The batch the one-row file materializes against `{a: int64}`. -/
def exBatchOne : RecordBatch :=
  { columns := [{ name := "a", dtype := SType.int64, cells := [some (JScalar.int 1)] }] }

/-- The two-row batch the producer yields from `exReaderMid`: both rows
appear, although the reader stood after the first row. -/
def exBatchTwo : RecordBatch :=
  { columns := [{ name := "a", dtype := SType.int64,
                  cells := [some (JScalar.int 1), some (JScalar.int 2)] }] }

/-- The batch the one-row file materializes against `{a: int64, b: utf8}`:
the missing field `b` is an all-null column. -/
def exBatchMissing : RecordBatch :=
  { columns := [{ name := "a", dtype := SType.int64, cells := [some (JScalar.int 1)] },
                { name := "b", dtype := SType.utf8, cells := [none] }] }

/-- A scan configuration with exactly one file group. -/
def exConfig : FileScanConfig :=
  { file_groups := [[[exRow1]]]
    file_schema := exSchemaA
    statistics := { num_rows := none, total_byte_size := none }
    projection := none
    limit := none
    table_partition_cols := [] }

/-- The plan node over `exConfig`. -/
def exExec : NdJsonExec := NdJsonExec.new exConfig

theorem parseLines_length : ∀ {ls : List Line} {objs : List JObj},
    parseLines ls = some objs → objs.length = ls.length := by
  intro ls
  induction ls with
  | nil =>
    intro objs h
    simp only [parseLines, Option.some.injEq] at h
    simp [← h]
  | cons l rest ih =>
    intro objs h
    match l with
    | none => simp [parseLines] at h
    | some r =>
      simp only [parseLines, Option.map_eq_some'] at h
      obtain ⟨os, hos, rfl⟩ := h
      simp [ih hos]

theorem parseLines_mem : ∀ {ls : List Line} {objs : List JObj},
    parseLines ls = some objs → ∀ r ∈ objs, (some r : Line) ∈ ls := by
  intro ls
  induction ls with
  | nil =>
    intro objs h r hr
    simp only [parseLines, Option.some.injEq] at h
    subst h
    cases hr
  | cons l rest ih =>
    intro objs h r hr
    match l with
    | none => simp [parseLines] at h
    | some r' =>
      simp only [parseLines, Option.map_eq_some'] at h
      obtain ⟨os, hos, rfl⟩ := h
      rcases List.mem_cons.mp hr with rfl | hr'
      · exact List.mem_cons_self _ _
      · exact List.mem_cons_of_mem _ (ih hos r hr')

theorem parseLines_eq_none : ∀ {ls : List Line},
    (none : Line) ∈ ls → parseLines ls = none := by
  intro ls h
  induction ls with
  | nil => cases h
  | cons l rest ih =>
    match l with
    | none => simp [parseLines]
    | some r =>
      have : (none : Line) ∈ rest := by
        rcases List.mem_cons.mp h with h' | h'
        · cases h'
        · exact h'
      simp [parseLines, ih this]

theorem chunksOfFuel_mem_length : ∀ (fuel n : Nat) (xs : List Line),
    ∀ c ∈ chunksOfFuel fuel n xs, c.length ≤ n := by
  intro fuel
  induction fuel with
  | zero =>
    intro n xs c hc
    cases xs <;> simp [chunksOfFuel] at hc
  | succ f ih =>
    intro n xs c hc
    cases xs with
    | nil => simp [chunksOfFuel] at hc
    | cons x xs =>
      cases n with
      | zero => simp [chunksOfFuel] at hc
      | succ n =>
        rw [chunksOfFuel] at hc
        rcases List.mem_cons.mp hc with rfl | hc'
        · exact List.length_take_le _ _
        · exact ih _ _ c hc'

theorem chunksOf_mem_length (n : Nat) (xs : List Line) :
    ∀ c ∈ chunksOf n xs, c.length ≤ n :=
  chunksOfFuel_mem_length xs.length n xs

theorem chunksOfFuel_flatten : ∀ (fuel n : Nat) (xs : List Line),
    xs.length ≤ fuel → n ≠ 0 → (chunksOfFuel fuel n xs).flatten = xs := by
  intro fuel
  induction fuel with
  | zero =>
    intro n xs hlen hn
    cases xs with
    | nil => simp [chunksOfFuel]
    | cons x xs => simp at hlen
  | succ f ih =>
    intro n xs hlen hn
    cases xs with
    | nil => simp [chunksOfFuel]
    | cons x xs =>
      cases n with
      | zero => exact absurd rfl hn
      | succ n =>
        have hlen2 : (xs.drop n).length ≤ f := by
          rw [List.length_drop]
          simp only [List.length_cons] at hlen
          omega
        rw [chunksOfFuel, List.flatten_cons, List.take_succ_cons,
          ih (n + 1) (xs.drop n) hlen2 hn]
        simp [List.take_append_drop]

theorem chunksOf_flatten (n : Nat) (xs : List Line) (hn : n ≠ 0) :
    (chunksOf n xs).flatten = xs :=
  chunksOfFuel_flatten xs.length n xs le_rfl hn

theorem readChunks_length {dt : DType} : ∀ {cs : List (List Line)} {as : List Arr},
    readChunks dt cs = some as → as.length = cs.length := by
  intro cs
  induction cs with
  | nil =>
    intro as h
    simp only [readChunks, Option.some.injEq] at h
    simp [← h]
  | cons c cs' ih =>
    intro as h
    rw [readChunks] at h
    cases hr : readChunk dt c with
    | none => rw [hr] at h; cases h
    | some a =>
      rw [hr] at h
      rcases Option.map_eq_some'.mp h with ⟨as', has', rfl⟩
      simp [ih has']

theorem readChunks_eq_none {dt : DType} : ∀ {cs : List (List Line)} {c : List Line},
    c ∈ cs → readChunk dt c = none → readChunks dt cs = none := by
  intro cs
  induction cs with
  | nil => intro c h; cases h
  | cons c0 cs' ih =>
    intro c hmem hnone
    rcases List.mem_cons.mp hmem with rfl | hmem'
    · rw [readChunks, hnone]
    · rw [readChunks]
      cases hr : readChunk dt c0 with
      | none => rfl
      | some a => rw [ih hmem' hnone]; rfl

theorem readChunks_singleton {dt : DType} {cs : List (List Line)} {a : Arr}
    (h : readChunks dt cs = some [a]) :
    ∃ c, cs = [c] ∧ readChunk dt c = some a := by
  match cs with
  | [] => simp [readChunks] at h
  | c :: cs' =>
    rw [readChunks] at h
    cases hr : readChunk dt c with
    | none => rw [hr] at h; cases h
    | some a0 =>
      rw [hr] at h
      rcases Option.map_eq_some'.mp h with ⟨as', has', heq⟩
      have h1 : a0 = a ∧ as' = [] := by
        constructor
        · exact (List.cons.injEq _ _ _ _ ▸ heq).1
        · exact (List.cons.injEq _ _ _ _ ▸ heq).2
      obtain ⟨rfl, rfl⟩ := h1
      have : cs' = [] := by
        have := readChunks_length has'
        simpa using this.symm
      subst this
      exact ⟨c, rfl, hr⟩

theorem deserialize_len (dt : DType) (rows : List JObj) :
    (deserialize dt rows).len = rows.length := by
  cases dt <;> simp [deserialize]

theorem deserialize_col_length {dt : DType} {rows : List JObj} {col : Column}
    (h : col ∈ (deserialize dt rows).cols) : col.cells.length = rows.length := by
  cases dt with
  | null => simp [deserialize] at h
  | strct fs =>
    simp only [deserialize, List.mem_map] at h
    obtain ⟨nt, _, rfl⟩ := h
    simp

theorem deserialize_names (dt : DType) (rows : List JObj) :
    (deserialize dt rows).cols.map (fun c => c.name) = namesD dt := by
  cases dt <;> simp [deserialize, namesD, List.map_map, Function.comp]

theorem numRows_truncate (k : Nat) (b : RecordBatch) :
    (b.truncate k).numRows = min k b.numRows := by
  cases hb : b.columns with
  | nil => simp [RecordBatch.truncate, RecordBatch.numRows, hb]
  | cons c cs => simp [RecordBatch.truncate, RecordBatch.numRows, hb, List.length_take]

theorem map_fst_update (acc : List (String × SType)) (n0 : String) (t0 : SType) :
    (acc.map fun p => if p.1 == n0 then (p.1, mergeS p.2 t0) else p).map Prod.fst
      = acc.map Prod.fst := by
  induction acc with
  | nil => rfl
  | cons p rest ih =>
    simp only [List.map_cons]
    rw [ih]
    congr 1
    by_cases h : (p.1 == n0) = true <;> simp [h]

theorem insertField_names {acc : List (String × SType)} {nt : String × SType} {m : String}
    (hm : m ∈ (insertField acc nt).map Prod.fst) :
    m ∈ acc.map Prod.fst ∨ m = nt.1 := by
  unfold insertField at hm
  split at hm
  · rw [map_fst_update] at hm
    exact Or.inl hm
  · rw [List.map_append] at hm
    rcases List.mem_append.mp hm with h | h
    · exact Or.inl h
    · simp only [List.map_cons, List.map_nil, List.mem_singleton] at h
      exact Or.inr h

theorem mergeFields_names : ∀ (b a : List (String × SType)) {m : String},
    m ∈ (mergeFields a b).map Prod.fst → m ∈ a.map Prod.fst ∨ m ∈ b.map Prod.fst := by
  intro b
  induction b with
  | nil => intro a m h; exact Or.inl h
  | cons nt rest ih =>
    intro a m h
    have h0 : mergeFields a (nt :: rest) = mergeFields (insertField a nt) rest := rfl
    rw [h0] at h
    rcases ih (insertField a nt) h with h2 | h2
    · rcases insertField_names h2 with h3 | h3
      · exact Or.inl h3
      · exact Or.inr (by simp [h3])
    · exact Or.inr (by simp [h2])

theorem mergeD_names {d e : DType} {m : String} (h : m ∈ namesD (mergeD d e)) :
    m ∈ namesD d ∨ m ∈ namesD e := by
  cases d with
  | null =>
    refine Or.inr ?_
    cases e
    · simp [mergeD, namesD] at h
    · exact h
  | strct a =>
    cases e with
    | null => exact Or.inl (by simpa [mergeD, namesD] using h)
    | strct b => exact mergeFields_names b a (by simpa [mergeD, namesD] using h)

theorem foldl_mergeD_names : ∀ (ds : List DType) (acc : DType) {m : String},
    m ∈ namesD (ds.foldl mergeD acc) → m ∈ namesD acc ∨ ∃ d ∈ ds, m ∈ namesD d := by
  intro ds
  induction ds with
  | nil => intro acc m h; exact Or.inl h
  | cons d rest ih =>
    intro acc m h
    rcases ih (mergeD acc d) h with h2 | h2
    · rcases mergeD_names h2 with h3 | h3
      · exact Or.inl h3
      · exact Or.inr ⟨d, by simp, h3⟩
    · obtain ⟨d', hd', hm⟩ := h2
      exact Or.inr ⟨d', by simp [hd'], hm⟩

theorem coerce_names {ds : List DType} {m : String} (h : m ∈ namesD (coerce ds)) :
    ∃ d ∈ ds, m ∈ namesD d := by
  rcases foldl_mergeD_names ds .null h with h2 | h2
  · simp [namesD] at h2
  · exact h2

theorem inferLine_names (row : JObj) : namesD (inferLine row) = row.map Prod.fst := by
  simp [inferLine, namesD, List.map_map, Function.comp]

theorem mem_linesKeys {lines : List Line} {row : JObj} {m : String}
    (hrow : (some row : Line) ∈ lines) (hm : m ∈ row.map Prod.fst) :
    m ∈ linesKeys lines := by
  unfold linesKeys
  refine List.mem_flatten.mpr ⟨row.map Prod.fst, ?_, hm⟩
  exact List.mem_map.mpr ⟨row, List.mem_filterMap.mpr ⟨some row, hrow, rfl⟩, rfl⟩

theorem infer_names {rem : List Line} {dt : DType} {m : String}
    (h : infer rem = some dt) (hm : m ∈ namesD dt) :
    ∃ row : JObj, (some row : Line) ∈ rem ∧ m ∈ row.map Prod.fst := by
  unfold infer at h
  rcases Option.map_eq_some'.mp h with ⟨objs, hobjs, rfl⟩
  rcases coerce_names hm with ⟨d, hd, hmd⟩
  rcases List.mem_map.mp hd with ⟨row, hrow, rfl⟩
  exact ⟨row, parseLines_mem hobjs row hrow, by rwa [inferLine_names] at hmd⟩

theorem materializeField_not_found {a : Arr} {f : Field}
    (h : f.name ∉ a.cols.map (fun c => c.name)) :
    materializeField a f =
      .ok { name := f.name, dtype := f.dtype, cells := List.replicate a.len none } := by
  unfold materializeField
  rw [List.find?_eq_none.mpr ?_]
  intro c hc hceq
  exact h (List.mem_map.mpr ⟨c, hc, eq_of_beq hceq⟩)

theorem materializeField_ok_cases {a : Arr} {f : Field} {c : Column}
    (h : materializeField a f = .ok c) :
    (c ∈ a.cols ∧ c.name = f.name ∧ c.dtype = f.dtype) ∨
    (c = { name := f.name, dtype := f.dtype, cells := List.replicate a.len none } ∧
      a.cols.find? (fun x => x.name == f.name) = none) := by
  unfold materializeField at h
  split at h
  · rename_i c0 hfind
    split at h
    · rename_i hd
      cases h
      have hname : c.name = f.name := by
        have h2 := List.find?_some hfind
        simpa using h2
      exact Or.inl ⟨List.mem_of_find?_eq_some hfind, hname, hd⟩
    · cases h
  · rename_i hfind
    cases h
    exact Or.inr ⟨rfl, hfind⟩

theorem collectColumns_sig {a : Arr} : ∀ {sch : List Field} {cols : List Column},
    collectColumns a sch = .ok cols →
    cols.map (fun c => (c.name, c.dtype)) = sch.map (fun f => (f.name, f.dtype)) := by
  intro sch
  induction sch with
  | nil =>
    intro cols h
    simp only [collectColumns, Except.ok.injEq] at h
    simp [← h]
  | cons f fs ih =>
    intro cols h
    rw [collectColumns] at h
    cases hm : materializeField a f with
    | error e => rw [hm] at h; cases h
    | ok c =>
      rw [hm] at h
      cases hc : collectColumns a fs with
      | error e => rw [hc] at h; cases h
      | ok cs =>
        rw [hc] at h
        cases h
        rcases materializeField_ok_cases hm with ⟨_, hn, hd⟩ | ⟨rfl, _⟩
        · simp [ih hc, hn, hd]
        · simp [ih hc]

theorem collectColumns_exists {a : Arr} : ∀ {sch : List Field} {cols : List Column},
    collectColumns a sch = .ok cols →
    ∀ f ∈ sch, ∃ c ∈ cols, materializeField a f = .ok c := by
  intro sch
  induction sch with
  | nil => intro cols _ f hf; cases hf
  | cons f0 fs ih =>
    intro cols h f hf
    rw [collectColumns] at h
    cases hm : materializeField a f0 with
    | error e => rw [hm] at h; cases h
    | ok c =>
      rw [hm] at h
      cases hc : collectColumns a fs with
      | error e => rw [hc] at h; cases h
      | ok cs =>
        rw [hc] at h
        cases h
        rcases List.mem_cons.mp hf with rfl | hf'
        · exact ⟨c, List.mem_cons_self _ _, hm⟩
        · obtain ⟨c', hc', hm'⟩ := ih hc f hf'
          exact ⟨c', List.mem_cons_of_mem _ hc', hm'⟩

theorem collectColumns_lengths {a : Arr}
    (ha : ∀ col ∈ a.cols, col.cells.length = a.len) :
    ∀ {sch : List Field} {cols : List Column},
    collectColumns a sch = .ok cols → ∀ c ∈ cols, c.cells.length = a.len := by
  intro sch
  induction sch with
  | nil =>
    intro cols h c hc
    simp only [collectColumns, Except.ok.injEq] at h
    subst h
    cases hc
  | cons f fs ih =>
    intro cols h c hc
    rw [collectColumns] at h
    cases hm : materializeField a f with
    | error e => rw [hm] at h; cases h
    | ok c0 =>
      rw [hm] at h
      cases hcc : collectColumns a fs with
      | error e => rw [hcc] at h; cases h
      | ok cs =>
        rw [hcc] at h
        cases h
        rcases List.mem_cons.mp hc with rfl | hc'
        · rcases materializeField_ok_cases hm with ⟨hmem, _, _⟩ | ⟨rfl, _⟩
          · exact ha _ hmem
          · simp
        · exact ih hcc c hc'

theorem try_new_ok_elim {schema : List Field} {arrays : List Arr} {b : RecordBatch}
    (h : RecordBatch.try_new schema arrays = .ok b) :
    ∃ a, arrays = [a] ∧ collectColumns a schema = .ok b.columns := by
  match arrays with
  | [] => simp [RecordBatch.try_new] at h
  | [a] =>
    rw [RecordBatch.try_new] at h
    cases hc : collectColumns a schema with
    | error e => rw [hc] at h; cases h
    | ok cols =>
      rw [hc] at h
      cases h
      refine ⟨a, rfl, ?_⟩
      simpa using hc
  | a :: a' :: rest => simp [RecordBatch.try_new] at h

theorem next_elim (s : JsonBatchReader) :
    (s.next).1 = (match infer (s.lines.drop s.pos) with
      | none => none
      | some dt =>
        match readAll dt s.batchSize s.lines with
        | none => none
        | some arrays => some (RecordBatch.try_new s.schema arrays)) := by
  unfold JsonBatchReader.next JsonBatchReader.inferStep JsonBatchReader.rewind
  cases hi : infer (s.lines.drop s.pos) with
  | none => simp [hi]
  | some dt =>
    simp only [hi, List.drop_zero]
    cases hr : readAll dt s.batchSize s.lines with
    | none => simp [hr]
    | some arrays => simp [hr]

theorem inferStep_fst (s : JsonBatchReader) :
    (s.inferStep).1 = infer (s.lines.drop s.pos) := by
  unfold JsonBatchReader.inferStep
  cases hi : infer (s.lines.drop s.pos) <;> simp [hi]

theorem next_ok_inv {s : JsonBatchReader} {b : RecordBatch}
    (h : (s.next).1 = some (.ok b)) :
    ∃ dt objs chunk,
      infer (s.lines.drop s.pos) = some dt ∧
      chunksOf s.batchSize s.lines = [chunk] ∧
      parseLines chunk = some objs ∧
      collectColumns (deserialize dt objs) s.schema = .ok b.columns := by
  rw [next_elim] at h
  cases hi : infer (s.lines.drop s.pos) with
  | none => simp [hi] at h
  | some dt =>
    simp only [hi] at h
    cases hr : readAll dt s.batchSize s.lines with
    | none => simp [hr] at h
    | some arrays =>
      simp only [hr, Option.some.injEq] at h
      rcases try_new_ok_elim h with ⟨a, rfl, hcols⟩
      unfold readAll at hr
      rcases readChunks_singleton hr with ⟨chunk, hchunks, hrc⟩
      unfold readChunk at hrc
      rcases Option.map_eq_some'.mp hrc with ⟨objs, hobjs, rfl⟩
      exact ⟨dt, objs, chunk, rfl, hchunks, hobjs, hcols⟩

/-- Claim C1: every batch emitted by a production step of
`JsonBatchReader::next` has column count, order, names and types equal
to the target schema exactly; all its columns share the chunk's row
count; and every target field with no counterpart among the field names
observed in the input rows comes out as an all-null column of the
target name and type whose length is the batch's row count.
(The materializer `RecordBatch::try_new` is modelled from the spec,
§4.3 step 4, since `datafusion_common` is not under `src/`.) -/
theorem c1_schema_conformance (s : JsonBatchReader) (b : RecordBatch)
    (h : (s.next).1 = some (.ok b)) :
    b.columns.map (fun c => (c.name, c.dtype)) = s.schema.map (fun f => (f.name, f.dtype)) ∧
    (∀ c ∈ b.columns, c.cells.length = b.numRows) ∧
    (∀ f ∈ s.schema, f.name ∉ linesKeys s.lines →
      ∃ c ∈ b.columns, c.name = f.name ∧ c.dtype = f.dtype ∧
        c.cells.length = b.numRows ∧ ∀ x ∈ c.cells, x = none) := by
  rcases next_ok_inv h with ⟨dt, objs, chunk, hi, hchunks, hobjs, hcols⟩
  have hlen : ∀ col ∈ (deserialize dt objs).cols,
      col.cells.length = (deserialize dt objs).len := by
    intro col hc
    rw [deserialize_col_length hc, deserialize_len]
  have hall : ∀ c ∈ b.columns, c.cells.length = (deserialize dt objs).len :=
    collectColumns_lengths hlen hcols
  have hsig := collectColumns_sig hcols
  have hnum : b.columns ≠ [] → b.numRows = (deserialize dt objs).len := by
    intro hne
    cases hb : b.columns with
    | nil => exact absurd hb hne
    | cons c cs =>
      have hc := hall c (by rw [hb]; exact List.mem_cons_self _ _)
      simp [RecordBatch.numRows, hb, hc]
  refine ⟨hsig, ?_, ?_⟩
  · intro c hc
    have hne : b.columns ≠ [] := by
      intro hemp
      rw [hemp] at hc
      cases hc
    rw [hall c hc, hnum hne]
  · intro f hf hnotin
    have hnoobs : f.name ∉ (deserialize dt objs).cols.map (fun c => c.name) := by
      intro hmem
      rw [deserialize_names] at hmem
      rcases infer_names hi hmem with ⟨row, hrow, hkey⟩
      exact hnotin (mem_linesKeys (List.drop_subset _ _ hrow) hkey)
    have hmf := materializeField_not_found hnoobs
    rcases collectColumns_exists hcols f hf with ⟨c, hcmem, hcmf⟩
    rw [hmf] at hcmf
    cases hcmf
    have hne : b.columns ≠ [] := by
      intro hemp
      rw [hemp] at hcmem
      cases hcmem
    refine ⟨_, hcmem, rfl, rfl, ?_, ?_⟩
    · rw [hnum hne]
      simp
    · intro x hx
      exact List.eq_of_mem_replicate hx

/-- Claim C1 witness: the one-row file materialized against
`{a: int64, b: utf8}` conforms to the schema, and the missing field `b`
is an all-null column of one row. -/
theorem c1_schema_conformance_witness :
    (exReaderMissing.next).1 = some (.ok exBatchMissing) ∧
    (exBatchMissing.columns.map (fun c => (c.name, c.dtype)) =
        exReaderMissing.schema.map (fun f => (f.name, f.dtype)) ∧
      (∀ c ∈ exBatchMissing.columns, c.cells.length = exBatchMissing.numRows) ∧
      (∀ f ∈ exReaderMissing.schema, f.name ∉ linesKeys exReaderMissing.lines →
        ∃ c ∈ exBatchMissing.columns, c.name = f.name ∧ c.dtype = f.dtype ∧
          c.cells.length = exBatchMissing.numRows ∧ ∀ x ∈ c.cells, x = none)) :=
  ⟨rfl, c1_schema_conformance exReaderMissing exBatchMissing rfl⟩

/-- Claim C2, counterexample: a partition holding one file with a single
well-formed row, run with limit 2, emits 2 rows in total — not
`min 2 1 = 1` as the claim states — because the per-file producer keeps
yielding synthesized batches after the file is drained instead of
signalling exhaustion. -/
theorem c2_row_limit_counterexample :
    emittedRows (runStream 10 { files := [exReaderOneRow], limit := some 2 }) = 2 ∧
    min 2 (availableRows [exReaderOneRow]) = 1 := by
  constructor <;> rfl

/-- Claim C2, amended: the modelled partition stream truncates every
batch to the remaining budget and decrements it, so at most `L` rows are
emitted in total and a zero budget emits nothing — but the total is not
`min(L, rows available in the files)`, since the producer can emit past
the end of its file (see the counterexample). -/
theorem c2_row_limit_amended (fuel : Nat) (files : List JsonBatchReader) (L : Nat) :
    emittedRows (runStream fuel { files := files, limit := some L }) ≤ L ∧
    runStream fuel { files := files, limit := some 0 } = [] := by
  constructor
  · induction fuel generalizing files L with
    | zero => simp [runStream, emittedRows]
    | succ n ih =>
      simp only [runStream]
      by_cases hL : L = 0
      · subst hL
        simp [emittedRows]
      · rw [if_neg (by simp [hL])]
        cases files with
        | nil => simp [emittedRows]
        | cons f rest =>
          simp only []
          rcases hn : f.next with ⟨r, f'⟩
          cases r with
          | none =>
            simpa [emittedRows] using ih rest L
          | some res =>
            cases res with
            | error e =>
              simp [emittedRows]
            | ok b =>
              simp only [emittedRows]
              have h1 : (b.truncate (min L b.numRows)).numRows ≤ min L b.numRows := by
                rw [numRows_truncate]
                exact Nat.min_le_left _ _
              have h2 := ih (f' :: rest) (L - min L b.numRows)
              have h3 : min L b.numRows ≤ L := Nat.min_le_left _ _
              omega
  · cases fuel <;> simp [runStream]

/-- Claim C3, counterexample: a file whose only line is malformed makes
the producer's step signal exhaustion (`None`), not a parse error, and
the partition stream then continues with the next file and emits its
batch — the sequence neither surfaces an error nor stops before later
files. -/
theorem c3_fail_fast_counterexample :
    (exReaderBad.next).1 = none ∧
    runStream 2 { files := [exReaderBad, exReaderOneRow], limit := none } =
      [.ok exBatchOne] := by
  constructor <;> rfl

/-- Claim C3, amended: with a positive batch size, a file containing a
malformed record makes the production step of `JsonBatchReader::next`
signal exhaustion (`None`): the error of the inference or deserialization
pass is swallowed by `.ok()?`, so the partition stream treats the file as
exhausted and proceeds to later files instead of failing fast. -/
theorem c3_fail_fast_amended (s : JsonBatchReader)
    (hbs : 0 < s.batchSize) (hbad : (none : Line) ∈ s.lines) :
    (s.next).1 = none := by
  rw [next_elim]
  cases hi : infer (s.lines.drop s.pos) with
  | none => simp [hi]
  | some dt =>
    simp only [hi]
    have hra : readAll dt s.batchSize s.lines = none := by
      have hflat : (chunksOf s.batchSize s.lines).flatten = s.lines :=
        chunksOf_flatten _ _ (by omega)
      have hmem : (none : Line) ∈ (chunksOf s.batchSize s.lines).flatten := by
        rw [hflat]
        exact hbad
      rcases List.mem_flatten.mp hmem with ⟨c, hc, hnc⟩
      unfold readAll
      refine readChunks_eq_none hc ?_
      unfold readChunk
      rw [parseLines_eq_none hnc]
      rfl
    rw [hra]

/-- Claim C3 witness: the reader over the malformed one-line file has a
positive batch size and a malformed line, and its step yields `None`. -/
theorem c3_fail_fast_witness :
    0 < exReaderBad.batchSize ∧ (none : Line) ∈ exReaderBad.lines ∧
    (exReaderBad.next).1 = none :=
  ⟨by decide, by decide, c3_fail_fast_amended exReaderBad (by decide) (by decide)⟩

/-- Claim C4, counterexample: a reader positioned after the first of two
rows does not resume reading at that position.  The step's rewind moves
the stream to position 0, not to the pre-inference position 1, and the
subsequent row read re-reads the first row: the step yields a two-row
batch instead of the one remaining row. -/
theorem c4_rewind_counterexample :
    exReaderMid.pos = 1 ∧
    ((exReaderMid.inferStep).2.rewind).pos ≠ exReaderMid.pos ∧
    (exReaderMid.next).1 = some (.ok exBatchTwo) := by
  refine ⟨rfl, by decide, rfl⟩

/-- Claim C4, amended: after the inference pass the producer rewinds the
stream to its start (position 0), not to the position held before
inference; no line is lost, and the subsequent row read covers the whole
file from position 0 — the chunks handed to batch construction are the
chunks of all lines, not of the lines from the pre-step position. -/
theorem c4_rewind_amended (s : JsonBatchReader) :
    ((s.inferStep).2.rewind).pos = 0 ∧
    ((s.inferStep).2.rewind).lines = s.lines ∧
    (s.next).1 = (match (s.inferStep).1 with
      | none => none
      | some dt => Option.elim (readAll dt s.batchSize s.lines) none
          (fun arrays => some (RecordBatch.try_new s.schema arrays))) := by
  refine ⟨?_, ?_, ?_⟩
  · unfold JsonBatchReader.inferStep JsonBatchReader.rewind
    cases hi : infer (s.lines.drop s.pos) <;> simp [hi]
  · unfold JsonBatchReader.inferStep JsonBatchReader.rewind
    cases hi : infer (s.lines.drop s.pos) <;> simp [hi]
  · rw [next_elim, inferStep_fst]
    cases hi : infer (s.lines.drop s.pos) with
    | none => rfl
    | some dt =>
      simp only []
      cases hr : readAll dt s.batchSize s.lines <;> simp [hr]

/-- Claim C5, counterexample: a two-row file read with batch size 1 does
not yield multiple one-row batches.  The single production step drains
the whole file, hands two chunk arrays to batch construction, which
fails, and the partition stream surfaces that error and stops: no batch
at all is emitted. -/
theorem c5_batch_size_counterexample :
    exReaderTwoRows.batchSize < exReaderTwoRows.lines.length ∧
    (exReaderTwoRows.next).1 = some (.error .batchConstruction) ∧
    runStream 5 { files := [exReaderTwoRows], limit := none } =
      [.error .batchConstruction] := by
  refine ⟨by decide, rfl, rfl⟩

/-- Claim C5, amended: every batch a production step does emit has at
most `batch_size` rows (a success forces the file to fit in a single
chunk), but a file with more than `batch_size` rows does not yield
multiple batches: the step drains the whole file and batch construction
rejects the resulting multi-chunk column list (see the counterexample). -/
theorem c5_batch_size_amended (s : JsonBatchReader) (b : RecordBatch)
    (h : (s.next).1 = some (.ok b)) : b.numRows ≤ s.batchSize := by
  rcases next_ok_inv h with ⟨dt, objs, chunk, hi, hchunks, hobjs, hcols⟩
  have hchunklen : chunk.length ≤ s.batchSize := by
    refine chunksOf_mem_length s.batchSize s.lines chunk ?_
    rw [hchunks]
    exact List.mem_cons_self _ _
  have hobjlen : objs.length = chunk.length := parseLines_length hobjs
  have hlen : ∀ col ∈ (deserialize dt objs).cols,
      col.cells.length = (deserialize dt objs).len := by
    intro col hc
    rw [deserialize_col_length hc, deserialize_len]
  have hall := collectColumns_lengths hlen hcols
  cases hb : b.columns with
  | nil => simp [RecordBatch.numRows, hb]
  | cons c cs =>
    have hc := hall c (by rw [hb]; exact List.mem_cons_self _ _)
    have hnr : b.numRows = c.cells.length := by simp [RecordBatch.numRows, hb]
    rw [hnr, hc, deserialize_len, hobjlen]
    exact hchunklen

/-- Claim C5 witness: the one-row file with batch size 4 emits a batch,
and that batch has at most 4 rows. -/
theorem c5_batch_size_witness :
    (exReaderOneRow.next).1 = some (.ok exBatchOne) ∧
    exBatchOne.numRows ≤ exReaderOneRow.batchSize :=
  ⟨rfl, c5_batch_size_amended exReaderOneRow exBatchOne rfl⟩

/-- Claim C6, counterexample: on a node with one file group, requesting
partition 1 does not produce an out-of-range error result: the indexing
`file_groups[partition]` panics (modelled as `none`), so the failure is a
crash, not a synchronously reported failed result. -/
theorem c6_execute_counterexample :
    exExec.base_config.file_groups.length = 1 ∧
    exExec.execute 1 4 = none := by
  constructor <;> rfl

/-- Claim C6, amended: `execute` crashes (panics at the file-group
indexing, modelled as `none`) exactly when the partition index is not a
valid file-group index, rather than returning an error result; for every
valid index it returns a stream bound to that file group, built from the
file schema, the runtime batch size, the projected column names and the
configured limit. -/
theorem c6_execute_amended (e : NdJsonExec) (p bs : Nat) :
    (e.execute p bs = none ↔ e.base_config.file_groups.length ≤ p) ∧
    e.execute p bs = (e.base_config.file_groups.get? p).map (fun group =>
      .ok { files := group.map fun file =>
              JsonBatchReader.new file e.base_config.file_schema bs
                e.base_config.projected_file_column_names
            limit := e.base_config.limit }) := by
  unfold NdJsonExec.execute
  cases hg : e.base_config.file_groups.get? p with
  | none =>
    have hlen : e.base_config.file_groups.length ≤ p := List.get?_eq_none.mp hg
    simp [hlen]
  | some g =>
    have hlt : p < e.base_config.file_groups.length := by
      rcases List.get?_eq_some.mp hg with ⟨h, _⟩
      exact h
    constructor
    · simp
      omega
    · simp

/-- Claim C7: `with_new_children` succeeds exactly on an empty child
list, in which case it returns the node itself (hence the same
configuration, projected schema and statistics — the code returns a
clone); a non-empty list yields an internal (structural) error. -/
theorem c7_with_new_children (e : NdJsonExec) (children : List Unit) :
    e.with_new_children children =
      (if children.isEmpty then .ok e else .error .internal) ∧
    (e.with_new_children children = .ok e ↔ children = []) := by
  cases children <;> simp [NdJsonExec.with_new_children]

/-- Claim C8: `output_partitioning` always returns the
unknown/arbitrary partitioning whose partition count is the number of
file groups of the scan configuration. -/
theorem c8_output_partitioning (e : NdJsonExec) :
    e.output_partitioning = .unknownPartitioning e.base_config.file_groups.length :=
  rfl

/-- Claim C9: inside `JsonBatchReader::next`, a failure of structural
inference or of the chunked row read/deserialization is swallowed by
`.ok()?` and terminates the iterator with `None` instead of yielding an
error item; the only value the iterator ever yields is the result of
`RecordBatch::try_new`, so the only yielded error is a batch-construction
failure.  (The stream rewind between the two phases is pure in this
model and cannot fail; in the code its failure is swallowed by the same
`.ok()?` pattern.) -/
theorem c9_error_provenance (s : JsonBatchReader) :
    (infer (s.lines.drop s.pos) = none → (s.next).1 = none) ∧
    (∀ dt, infer (s.lines.drop s.pos) = some dt →
      readAll dt s.batchSize s.lines = none → (s.next).1 = none) ∧
    (∀ r, (s.next).1 = some r → ∃ arrays, r = RecordBatch.try_new s.schema arrays) := by
  refine ⟨?_, ?_, ?_⟩
  · intro hi
    rw [next_elim, hi]
  · intro dt hi hr
    rw [next_elim]
    simp [hi, hr]
  · intro r hr
    rw [next_elim] at hr
    cases hi : infer (s.lines.drop s.pos) with
    | none => simp [hi] at hr
    | some dt =>
      simp only [hi] at hr
      cases hra : readAll dt s.batchSize s.lines with
      | none => simp [hra] at hr
      | some arrays =>
        simp only [hra, Option.some.injEq] at hr
        exact ⟨arrays, hr.symm⟩

/-- Claim C9 witness: a reader whose malformed line lies before the read
position passes inference but fails the chunked read, and the step
yields `None` (exhaustion), not an error item. -/
theorem c9_error_provenance_witness :
    infer (exReaderBadMid.lines.drop exReaderBadMid.pos) =
      some (DType.strct [("a", SType.int64)]) ∧
    readAll (DType.strct [("a", SType.int64)]) exReaderBadMid.batchSize
      exReaderBadMid.lines = none ∧
    (exReaderBadMid.next).1 = none :=
  ⟨rfl, rfl, (c9_error_provenance exReaderBadMid).2.1 _ rfl rfl⟩

/-- Claim C10: the production step never consults the name-based
projection `proj`: two reader states differing only in `proj` yield the
same item, and the same successor state up to the untouched `proj`
field. -/
theorem c10_proj_independence (lines : List Line) (pos : Nat) (schema : List Field)
    (batchSize : Nat) (p q : Option (List String)) :
    (JsonBatchReader.mk lines pos schema p batchSize).next.1 =
      (JsonBatchReader.mk lines pos schema q batchSize).next.1 ∧
    (JsonBatchReader.mk lines pos schema p batchSize).next.2 =
      { (JsonBatchReader.mk lines pos schema q batchSize).next.2 with proj := p } := by
  unfold JsonBatchReader.next JsonBatchReader.inferStep JsonBatchReader.rewind
  cases hi : infer (lines.drop pos) with
  | none => simp [hi]
  | some dt =>
    simp only [hi, List.drop_zero]
    cases hr : readAll dt batchSize lines with
    | none => simp [hr]
    | some arrays => simp [hr]

end NdJson
